import Mathlib

/-!
# Verification of the `se_atten` descriptor core

A shallow embedding, in Lean 4, of the computational core of
`deepmd/descriptor/se_atten.py` (class `DescrptSeAtten`): the type-exclusion
mask builder, the scaled-dot-product attention step, the two-sided
type-embedding mixing, the descriptor assembly, the fail-fast configuration
checks, the atom-type clipping, and the normalization-statistics policy.

Tensors are modelled as functions out of `Fin` types (or plain lists when the
source indexes flattened buffers), machine floats as exact rationals `ℚ` for
the purely arithmetic parts and as reals `ℝ` where the source applies
`exp`/`sqrt` (softmax, l2-normalization).  Learned networks that the source
applies row-by-row (`embedding_net`, `one_layer`) are abstracted as arbitrary
per-row functions, which is faithful because those layers act independently on
each row of their input.
-/

/-! ## Type-exclusion mask (`build_type_exclude_mask`, se_atten.py lines 1046-1128)

The source builds a nested Python list
`[[1 if (tt_i, tt_j) not in exclude_types else 0 for tt_i in range(ntypes + 1)]
  for tt_j in range(ntypes)]`
(`ntypes` rows of length `ntypes + 1`), flattens it with `tf.reshape(..., [-1])`,
and gathers entries at the flat index `atype * (ntypes + 1) + nei_type`.
-/

/-- The dense lookup table of `build_type_exclude_mask`, already flattened
row-major exactly as `tf.reshape(type_mask, [-1])` does: `ntypes` rows indexed
by `tt_j`, each of the `ntypes + 1` entries indexed by `tt_i` holding
`1` if `(tt_i, tt_j)` is not excluded and `0` otherwise. -/
def typeMaskTable (excludeTypes : List (ℕ × ℕ)) (ntypes : ℕ) : List ℕ :=
  ((List.range ntypes).map (fun ttj =>
    (List.range (ntypes + 1)).map (fun tti =>
      if (tti, ttj) ∈ excludeTypes then 0 else 1))).flatten

/-- The flat gather index `idx = idx_i + idx_j` of `build_type_exclude_mask`,
where `idx_i = atype * (ntypes + 1)` and `idx_j = nei_type_vec`. -/
def typeExcludeIdx (ntypes centerType neiType : ℕ) : ℕ :=
  centerType * (ntypes + 1) + neiType

/-- One gathered entry of the exclusion mask:
`tf.nn.embedding_lookup(type_mask, idx)` for the slot of a center atom of type
`centerType` and a neighbor of type `neiType` (the sentinel `neiType = ntypes`
marks a non-existing neighbor). -/
def typeExcludeMaskEntry (excludeTypes : List (ℕ × ℕ)) (ntypes centerType neiType : ℕ) : ℕ :=
  (typeMaskTable excludeTypes ntypes).getD (typeExcludeIdx ntypes centerType neiType) 0

/-- The `ndescrpt`-wide mask row of one center atom: the per-slot gathered
entry is broadcast over the `ndescrpt / sel = 4` channels of each neighbor
slot (`idx_j` is tiled by `ndescrpt // sel[0]` in the source). -/
def buildTypeExcludeMaskRow (excludeTypes : List (ℕ × ℕ)) (ntypes sel : ℕ)
    (centerType : ℕ) (neiType : ℕ → ℕ) : List ℕ :=
  (List.range sel).flatMap (fun jj =>
    List.replicate 4 (typeExcludeMaskEntry excludeTypes ntypes centerType (neiType jj)))

/-- Indexing a concatenation of uniform-length rows at `r * k + c` lands in row
`r`, column `c`. -/
theorem joinUniform_getD {α : Type} (d : α) :
    ∀ (L : List (List α)) (k r c : ℕ), (∀ row ∈ L, row.length = k) →
      r < L.length → c < k →
      L.flatten.getD (r * k + c) d = (L.getD r []).getD c d := by
  intro L
  induction L with
  | nil => intro k r c _ hr _; simp at hr
  | cons hd tl ih =>
      intro k r c hlen hr hc
      have hhd : hd.length = k := hlen hd (List.mem_cons_self hd tl)
      cases r with
      | zero =>
          have hlt : 0 * k + c < hd.length := by omega
          simp only [List.flatten_cons, List.getD_eq_getElem?_getD,
            List.getElem?_cons_zero, Option.getD_some]
          rw [List.getElem?_append_left hlt]
          simp [Nat.zero_mul]
      | succ r' =>
          have hmul : (r' + 1) * k = r' * k + k := by ring
          simp only [List.flatten_cons, List.getD_eq_getElem?_getD,
            List.getElem?_cons_succ]
          rw [List.getElem?_append_right (by omega)]
          have hsub : (r' + 1) * k + c - hd.length = r' * k + c := by omega
          rw [hsub]
          have h2 := ih k r' c (fun row hrow => hlen row (List.mem_cons_of_mem hd hrow))
            (by simpa using hr) hc
          simpa [List.getD_eq_getElem?_getD] using h2

/-- Reading inside a `replicate` block returns the replicated element. -/
theorem replicate_getD {α : Type} (a d : α) :
    ∀ (n m : ℕ), m < n → (List.replicate n a).getD m d = a := by
  intro n
  induction n with
  | zero => intro m h; omega
  | succ n ih =>
      intro m h
      cases m with
      | zero => simp [List.replicate]
      | succ m => simpa [List.replicate] using ih m (by omega)

/-- The gathered mask entry, in closed form: it is `0` exactly when the pair
`(neiType, centerType)` — neighbor first — belongs to the exclusion list. -/
theorem typeExcludeMaskEntry_eq (excludeTypes : List (ℕ × ℕ)) (ntypes a b : ℕ)
    (ha : a < ntypes) (hb : b ≤ ntypes) :
    typeExcludeMaskEntry excludeTypes ntypes a b =
      if (b, a) ∈ excludeTypes then 0 else 1 := by
  unfold typeExcludeMaskEntry typeMaskTable typeExcludeIdx
  rw [joinUniform_getD 0 _ (ntypes + 1) a b ?_ ?_ (by omega)]
  · simp only [List.getD_eq_getElem?_getD]
    rw [List.getElem?_map, List.getElem?_range ha]
    simp only [Option.map_some', Option.getD_some]
    rw [List.getElem?_map, List.getElem?_range (by omega)]
    simp
  · intro row hrow
    simp only [List.mem_map] at hrow
    obtain ⟨j, _, hj⟩ := hrow
    simp [← hj]
  · simpa using ha

/-- Membership broadcast to all 4 channels: the `ndescrpt`-wide mask row at
channel `ch` of neighbor slot `jj` equals the per-slot gathered entry. -/
theorem buildTypeExcludeMaskRow_getD (excludeTypes : List (ℕ × ℕ)) (ntypes sel : ℕ)
    (centerType : ℕ) (neiType : ℕ → ℕ) (jj ch : ℕ) (hjj : jj < sel) (hch : ch < 4) :
    (buildTypeExcludeMaskRow excludeTypes ntypes sel centerType neiType).getD (jj * 4 + ch) 0 =
      typeExcludeMaskEntry excludeTypes ntypes centerType (neiType jj) := by
  unfold buildTypeExcludeMaskRow
  rw [List.flatMap_def]
  rw [joinUniform_getD 0 _ 4 jj ch ?_ ?_ hch]
  · simp only [List.getD_eq_getElem?_getD]
    rw [List.getElem?_map, List.getElem?_range hjj]
    simp only [Option.map_some', Option.getD_some]
    rw [← List.getD_eq_getElem?_getD]
    exact replicate_getD _ 0 4 ch hch
  · intro row hrow
    simp only [List.map_map, List.mem_map] at hrow
    obtain ⟨j, _, hj⟩ := hrow
    simp [← hj]
  · simpa using hjj

/-- The flattened lookup table is dense with `ntypes * (ntypes + 1)` entries. -/
theorem typeMaskTable_length (excludeTypes : List (ℕ × ℕ)) (ntypes : ℕ) :
    (typeMaskTable excludeTypes ntypes).length = ntypes * (ntypes + 1) := by
  unfold typeMaskTable
  rw [List.length_flatten]
  simp [List.map_map, Function.comp_def, List.map_const']

/-- **C1** (amended).  For every exclusion list, every `ntypes`, every center
type `a < ntypes` (the caller clips center types into range) and every neighbor
type `b ≤ ntypes` (the value `ntypes` being the "no such neighbor" sentinel),
all 4 channels of a neighbor slot of `build_type_exclude_mask` carry the value
`0` exactly when the reversed pair `(b, a)` — neighbor type first — is in the
exclusion set, and `1` otherwise (in particular sentinel slots get `1` whenever
the exclusion list only mentions real types); the lookup table is dense with
`ntypes * (ntypes + 1)` entries — `ntypes` rows indexed by the center type,
each with `ntypes + 1` neighbor-type entries — and the gather uses the
flattened index `idx = center_type * (ntypes + 1) + neighbor_type`.
For the symmetrized exclusion sets the `DescrptSeA` constructor passes, the
reversed-pair test coincides with the claimed `(a, b)` test. -/
theorem build_type_exclude_mask_correct (excludeTypes : List (ℕ × ℕ)) (ntypes sel : ℕ)
    (a : ℕ) (neiType : ℕ → ℕ) (jj ch : ℕ)
    (ha : a < ntypes) (hb : neiType jj ≤ ntypes) (hjj : jj < sel) (hch : ch < 4) :
    (typeMaskTable excludeTypes ntypes).length = ntypes * (ntypes + 1) ∧
    (buildTypeExcludeMaskRow excludeTypes ntypes sel a neiType).getD (jj * 4 + ch) 0 =
      (typeMaskTable excludeTypes ntypes).getD (a * (ntypes + 1) + neiType jj) 0 ∧
    (buildTypeExcludeMaskRow excludeTypes ntypes sel a neiType).getD (jj * 4 + ch) 0 =
      if (neiType jj, a) ∈ excludeTypes then 0 else 1 := by
  refine ⟨typeMaskTable_length excludeTypes ntypes, ?_, ?_⟩
  · rw [buildTypeExcludeMaskRow_getD _ _ _ _ _ _ _ hjj hch]
    rfl
  · rw [buildTypeExcludeMaskRow_getD _ _ _ _ _ _ _ hjj hch,
      typeExcludeMaskEntry_eq _ _ _ _ ha hb]

/-- **C1** counterexample.  With the (unsymmetrized) exclusion set `{(0, 1)}`
and `ntypes = 2`, the mask at a slot whose center type is `0` and whose
neighbor type is `1` — so the pair `(a, b) = (0, 1)` is in the exclusion set —
is `1`, not `0` as the claim states: the code keys the table by the reversed
pair, so it is the slot with center type `1` and neighbor type `0` that gets
`0`. -/
theorem build_type_exclude_mask_claim_false :
    ((0, 1) ∈ [((0 : ℕ), (1 : ℕ))]) ∧
      ¬ ((buildTypeExcludeMaskRow [(0, 1)] 2 2 0 (fun jj => if jj = 0 then 1 else 0)).getD
          (0 * 4 + 0) 0 = 0) ∧
      (buildTypeExcludeMaskRow [(0, 1)] 2 2 1 (fun jj => if jj = 0 then 1 else 0)).getD
          (1 * 4 + 0) 0 = 0 := by
  decide

/-- **C1** witness: the amended theorem applied at the concrete input
`excludeTypes = [(0, 1)]`, `ntypes = 2`, `sel = 1`, center type `1`,
neighbor type `0`, slot `0`, channel `3`. -/
theorem build_type_exclude_mask_correct_witness :
    ((1 : ℕ) < 2 ∧ (0 : ℕ) ≤ 2 ∧ (0 : ℕ) < 1 ∧ (3 : ℕ) < 4) ∧
      ((typeMaskTable [(0, 1)] 2).length = 2 * (2 + 1) ∧
      (buildTypeExcludeMaskRow [(0, 1)] 2 1 1 (fun _ => 0)).getD (0 * 4 + 3) 0 =
        (typeMaskTable [(0, 1)] 2).getD (1 * (2 + 1) + 0) 0 ∧
      (buildTypeExcludeMaskRow [(0, 1)] 2 1 1 (fun _ => 0)).getD (0 * 4 + 3) 0 =
        if ((0 : ℕ), (1 : ℕ)) ∈ [((0 : ℕ), (1 : ℕ))] then 0 else 1) :=
  ⟨⟨by decide, by decide, by decide, by decide⟩,
    build_type_exclude_mask_correct [(0, 1)] 2 1 1 (fun _ => 0) 0 3 (by decide) (by decide)
      (by decide) (by decide)⟩

/-! ## Scaled dot-product attention (`_scaled_dot_attn`, se_atten.py lines 642-672,
and the masks prepared in `build`, lines 385-389)

The source computes, per atom,
`attn = tf.matmul(Q / temperature, K, transpose_b=True)`,
multiplies it by the neighbor-validity mask `nmask` (broadcast over the last
axis), adds `negative_mask = -(2 << 32) * (1.0 - nmask)` (note
`2 << 32 = 2^33`), applies `tf.nn.softmax` along the last axis, multiplies by
`nmask` reshaped to broadcast over rows, optionally gates with the
coordinate-similarity matrix (`dotr`), optionally zeroes the diagonal
(`do_mask`), and finally multiplies with `V`.  Real arithmetic models the
floating-point tensors. -/

/-- `tf.nn.softmax` along the last axis, on one row. -/
noncomputable def softmaxRow (n : ℕ) (v : Fin n → ℝ) (k : Fin n) : ℝ :=
  Real.exp (v k) / ∑ x : Fin n, Real.exp (v x)

/-- The raw score matrix `tf.matmul(Q / temperature, K, transpose_b=True)`. -/
noncomputable def rawAttnScores (n A : ℕ) (Q K : Fin n → Fin A → ℝ) (temperature : ℝ)
    (j k : Fin n) : ℝ :=
  ∑ d : Fin A, Q j d / temperature * K k d

/-- The two masking steps applied to the scores before the softmax:
`attn *= self.nmask` followed by `attn += self.negative_mask`, where
`negative_mask = -(2 << 32) * (1.0 - nmask)` from `build`. -/
noncomputable def maskedAttnScores (n : ℕ) (scores : Fin n → Fin n → ℝ)
    (nmask : Fin n → ℝ) (j k : Fin n) : ℝ :=
  scores j k * nmask k + -(2 : ℝ) ^ 33 * (1 - nmask k)

/-- The post-softmax attention weights: softmax of the masked scores followed by
the row-wise multiplication `attn *= tf.reshape(self.nmask, [-1, nnei, 1])`. -/
noncomputable def postSoftmaxWeights (n A : ℕ) (Q K : Fin n → Fin A → ℝ)
    (temperature : ℝ) (nmask : Fin n → ℝ) (j k : Fin n) : ℝ :=
  softmaxRow n (maskedAttnScores n (rawAttnScores n A Q K temperature) nmask j) k * nmask j

/-- `tf.nn.l2_normalize(x, -1)` on one row: division by
`sqrt(max(sum(x^2), epsilon))` with TensorFlow's default `epsilon = 1e-12`. -/
noncomputable def l2NormalizeRow (A : ℕ) (x : Fin A → ℝ) (d : Fin A) : ℝ :=
  x d / Real.sqrt (max (∑ e : Fin A, x e ^ 2) 1e-12)

/-- The attention weights as `_attention_layers` produces them: `Q` and `K` are
the l2-normalized projection rows and the temperature is
`sd_k = tf.sqrt(tf.cast(1.0, ...))`. -/
noncomputable def attnWeightsNormalized (n A : ℕ) (Q K : Fin n → Fin A → ℝ)
    (nmask : Fin n → ℝ) (j k : Fin n) : ℝ :=
  postSoftmaxWeights n A (fun i => l2NormalizeRow A (Q i)) (fun i => l2NormalizeRow A (K i))
    (Real.sqrt 1) nmask j k

/-- The coordinate-similarity matrix
`angular_weight = tf.matmul(input_r, input_r, transpose_b=True)`. -/
noncomputable def angularWeight (n : ℕ) (inputR : Fin n → Fin 3 → ℝ) (j k : Fin n) : ℝ :=
  ∑ c : Fin 3, inputR j c * inputR k c

/-- The full `_scaled_dot_attn`, one `let` per source statement (the
`save_weights` branches only record diagnostics and are omitted). -/
noncomputable def scaledDotAttn (n A : ℕ) (Q K V : Fin n → Fin A → ℝ) (temperature : ℝ)
    (inputR : Fin n → Fin 3 → ℝ) (nmask : Fin n → ℝ) (dotr doMask : Bool)
    (j : Fin n) (a : Fin A) : ℝ :=
  let attn1 := fun (j k : Fin n) => rawAttnScores n A Q K temperature j k
  let attn2 := fun (j k : Fin n) => attn1 j k * nmask k
  let attn3 := fun (j k : Fin n) => attn2 j k + -(2 : ℝ) ^ 33 * (1 - nmask k)
  let attn4 := fun (j k : Fin n) => softmaxRow n (attn3 j) k
  let attn5 := fun (j k : Fin n) => attn4 j k * nmask j
  let attn6 := if dotr then fun (j k : Fin n) => attn5 j k * angularWeight n inputR j k
    else attn5
  let attn7 := if doMask then
      fun (j k : Fin n) => attn6 j k * (1 - if j = k then (1 : ℝ) else 0)
    else attn6
  ∑ k : Fin n, attn7 j k * V k a

/-- The squared norm of an l2-normalized row is at most 1. -/
theorem sum_sq_l2NormalizeRow_le_one (A : ℕ) (x : Fin A → ℝ) :
    ∑ d : Fin A, l2NormalizeRow A x d ^ 2 ≤ 1 := by
  have hS : (0 : ℝ) ≤ ∑ e : Fin A, x e ^ 2 :=
    Finset.sum_nonneg fun e _ => sq_nonneg (x e)
  have hmax : (0 : ℝ) < max (∑ e : Fin A, x e ^ 2) 1e-12 :=
    lt_max_of_lt_right (by norm_num)
  have hsqrt : Real.sqrt (max (∑ e : Fin A, x e ^ 2) 1e-12) ^ 2
      = max (∑ e : Fin A, x e ^ 2) 1e-12 := Real.sq_sqrt hmax.le
  unfold l2NormalizeRow
  simp only [div_pow, ← Finset.sum_div, hsqrt]
  rw [div_le_one hmax]
  exact le_max_left _ _

/-- With l2-normalized rows and temperature `sqrt(1)`, every raw attention
score lies in `[-1, 1]` (Cauchy-Schwarz). -/
theorem abs_rawAttnScores_normalized_le_one (n A : ℕ) (Q K : Fin n → Fin A → ℝ)
    (j k : Fin n) :
    |rawAttnScores n A (fun i => l2NormalizeRow A (Q i)) (fun i => l2NormalizeRow A (K i))
      (Real.sqrt 1) j k| ≤ 1 := by
  unfold rawAttnScores
  rw [Real.sqrt_one]
  simp only [div_one]
  rw [← sq_le_one_iff_abs_le_one]
  have hcs := Finset.sum_mul_sq_le_sq_mul_sq Finset.univ
    (fun d => l2NormalizeRow A (Q j) d) (fun d => l2NormalizeRow A (K k) d)
  have hq := sum_sq_l2NormalizeRow_le_one A (Q j)
  have hk2 := sum_sq_l2NormalizeRow_le_one A (K k)
  have hqn : (0 : ℝ) ≤ ∑ d : Fin A, l2NormalizeRow A (Q j) d ^ 2 :=
    Finset.sum_nonneg fun d _ => sq_nonneg _
  have hkn : (0 : ℝ) ≤ ∑ d : Fin A, l2NormalizeRow A (K k) d ^ 2 :=
    Finset.sum_nonneg fun d _ => sq_nonneg _
  nlinarith [hcs, hq, hk2, hqn, hkn]

/-- **C2** (amended).  In every attention layer the pre-softmax score matrix
`Q·Kᵗ` (temperature `sqrt(1)`) is multiplied elementwise by the
neighbor-validity mask and has `-(2^33)·(1 - mask)` added before the softmax;
consequently, whenever the mask is boolean and the atom has at least one valid
neighbor slot, every invalid (padded) neighbor slot receives a post-softmax
attention weight of at most `exp(1 - 2^33)` — positive in exact arithmetic but
zero at any floating-point precision — regardless of the magnitude of its
projected embedding. -/
theorem attn_invalid_slot_weight_bound (n A : ℕ) (Q K : Fin n → Fin A → ℝ)
    (nmask : Fin n → ℝ) (j k k₀ : Fin n)
    (hbool : ∀ i, nmask i = 0 ∨ nmask i = 1)
    (hk : nmask k = 0) (hk₀ : nmask k₀ = 1) :
    attnWeightsNormalized n A Q K nmask j k ≤ Real.exp (1 - 2 ^ 33) := by
  unfold attnWeightsNormalized postSoftmaxWeights
  have hvk : maskedAttnScores n
      (rawAttnScores n A (fun i => l2NormalizeRow A (Q i)) (fun i => l2NormalizeRow A (K i))
        (Real.sqrt 1)) nmask j k = -(2 : ℝ) ^ 33 := by
    simp [maskedAttnScores, hk]
  have hraw := abs_rawAttnScores_normalized_le_one n A Q K j k₀
  have hvk₀ : maskedAttnScores n
      (rawAttnScores n A (fun i => l2NormalizeRow A (Q i)) (fun i => l2NormalizeRow A (K i))
        (Real.sqrt 1)) nmask j k₀ =
      rawAttnScores n A (fun i => l2NormalizeRow A (Q i)) (fun i => l2NormalizeRow A (K i))
        (Real.sqrt 1) j k₀ := by
    simp [maskedAttnScores, hk₀]
  have hD : Real.exp (-1) ≤ ∑ x : Fin n, Real.exp (maskedAttnScores n
      (rawAttnScores n A (fun i => l2NormalizeRow A (Q i)) (fun i => l2NormalizeRow A (K i))
        (Real.sqrt 1)) nmask j x) := by
    have h1 : Real.exp (-1) ≤ Real.exp (maskedAttnScores n
        (rawAttnScores n A (fun i => l2NormalizeRow A (Q i)) (fun i => l2NormalizeRow A (K i))
          (Real.sqrt 1)) nmask j k₀) := by
      apply Real.exp_le_exp.mpr
      rw [hvk₀]
      have := (abs_le.mp hraw).1
      linarith
    refine le_trans h1 ?_
    exact Finset.single_le_sum (fun i _ => (Real.exp_pos _).le) (Finset.mem_univ k₀)
  have hsm : softmaxRow n (maskedAttnScores n
      (rawAttnScores n A (fun i => l2NormalizeRow A (Q i)) (fun i => l2NormalizeRow A (K i))
        (Real.sqrt 1)) nmask j) k ≤ Real.exp (1 - 2 ^ 33) := by
    unfold softmaxRow
    rw [hvk]
    calc Real.exp (-(2 : ℝ) ^ 33) / ∑ x : Fin n, Real.exp (maskedAttnScores n
          (rawAttnScores n A (fun i => l2NormalizeRow A (Q i))
            (fun i => l2NormalizeRow A (K i)) (Real.sqrt 1)) nmask j x)
        ≤ Real.exp (-(2 : ℝ) ^ 33) / Real.exp (-1) :=
          div_le_div_of_nonneg_left (Real.exp_pos _).le (Real.exp_pos _) hD
      _ = Real.exp (1 - 2 ^ 33) := by rw [← Real.exp_sub]; norm_num
  rcases hbool j with hj | hj
  · rw [hj, mul_zero]
    exact (Real.exp_pos _).le
  · rw [hj, mul_one]
    exact hsm

/-- **C2** counterexample.  In exact (real) arithmetic the post-softmax
attention weight of an invalid neighbor slot is not zero: the softmax of any
row, even one whose masked score is `-(2^33)`, is strictly positive.  At the
concrete input `n = 2`, `Q = K = 0`, `nmask = (1, 0)`, the weight that the
valid query row 0 assigns to the invalid slot 1 is nonzero (it is `0` only
after floating-point underflow). -/
theorem attn_invalid_slot_weight_ne_zero :
    attnWeightsNormalized 2 1 (fun _ _ => 0) (fun _ _ => 0) ![1, 0] 0 1 ≠ 0 := by
  have hpos : 0 < attnWeightsNormalized 2 1 (fun _ _ => 0) (fun _ _ => 0) ![1, 0] 0 1 := by
    unfold attnWeightsNormalized postSoftmaxWeights softmaxRow
    have hm0 : (![1, 0] : Fin 2 → ℝ) 0 = 1 := rfl
    rw [hm0, mul_one]
    apply div_pos (Real.exp_pos _)
    exact Finset.sum_pos (fun i _ => Real.exp_pos _) Finset.univ_nonempty
  exact ne_of_gt hpos

/-- **C2** witness: the amended bound applied at `n = 2`, `A = 1`, constant
projections, mask `(1, 0)`, query row 0, invalid slot 1, valid slot 0. -/
theorem attn_invalid_slot_weight_bound_witness :
    ((∀ i : Fin 2, (![1, 0] : Fin 2 → ℝ) i = 0 ∨ (![1, 0] : Fin 2 → ℝ) i = 1) ∧
      (![1, 0] : Fin 2 → ℝ) 1 = 0 ∧ (![1, 0] : Fin 2 → ℝ) 0 = 1) ∧
    attnWeightsNormalized 2 1 (fun _ _ => 1) (fun _ _ => 1) ![1, 0] 0 1 ≤
      Real.exp (1 - 2 ^ 33) := by
  have hbool : ∀ i : Fin 2, (![1, 0] : Fin 2 → ℝ) i = 0 ∨ (![1, 0] : Fin 2 → ℝ) i = 1 := by
    intro i
    fin_cases i
    · right; rfl
    · left; rfl
  exact ⟨⟨hbool, rfl, rfl⟩,
    attn_invalid_slot_weight_bound 2 1 (fun _ _ => 1) (fun _ _ => 1) ![1, 0] 0 1 0
      hbool rfl rfl⟩

/-- **C6**.  With `attn_dotr` enabled, `_scaled_dot_attn` multiplies the
post-softmax (and post-mask) attention weights elementwise by the similarity
matrix `input_r · input_rᵗ` of the normalized relative coordinates, strictly
after the masking and softmax steps, and applies the gated weights to `V`
without re-normalizing them: the first conjunct exhibits the output as
`Σ_k (postSoftmaxWeights · angularWeight) · V`; the second conjunct shows that
the softmax itself produces rows summing to `1`; and the remaining conjuncts
show a concrete input on which the gated weights of a row sum to `0 ≠ 1` while
the output is still their direct product with `V` — so no re-normalization
takes place after the gating. -/
theorem scaled_dot_attn_dotr_after_softmax :
    (∀ (n A : ℕ) (Q K V : Fin n → Fin A → ℝ) (temperature : ℝ)
        (inputR : Fin n → Fin 3 → ℝ) (nmask : Fin n → ℝ) (j : Fin n) (a : Fin A),
      scaledDotAttn n A Q K V temperature inputR nmask true false j a =
        ∑ k : Fin n,
          postSoftmaxWeights n A Q K temperature nmask j k * angularWeight n inputR j k
            * V k a) ∧
    (∀ (n : ℕ) (v : Fin (n + 1) → ℝ), ∑ k : Fin (n + 1), softmaxRow (n + 1) v k = 1) ∧
    (∑ k : Fin 1, postSoftmaxWeights 1 1 (fun _ _ => 0) (fun _ _ => 0) 1 (fun _ => 1) 0 k
        * angularWeight 1 (fun _ _ => 0) 0 k) = 0 ∧
    ((0 : ℝ) ≠ 1) ∧
    (∀ (V : Fin 1 → Fin 1 → ℝ) (a : Fin 1),
      scaledDotAttn 1 1 (fun _ _ => 0) (fun _ _ => 0) V 1 (fun _ _ => 0) (fun _ => 1)
        true false 0 a = 0) := by
  refine ⟨?_, ?_, ?_, by norm_num, ?_⟩
  · intro n A Q K V temperature inputR nmask j a
    rfl
  · intro n v
    unfold softmaxRow
    rw [← Finset.sum_div]
    exact div_self (ne_of_gt (Finset.sum_pos (fun i _ => Real.exp_pos _)
      Finset.univ_nonempty))
  · simp [postSoftmaxWeights, angularWeight]
  · intro V a
    unfold scaledDotAttn
    simp [angularWeight]

/-! ## Descriptor assembly (`_filter`, se_atten.py lines 929-1004, and the
closing `tf.matmul` of `_filter_lower`, lines 918-927)

`_filter_lower` returns `tf.matmul(inputs_i, xyz_scatter_att, transpose_a=True)`
— the `[4, W]` matrix `G = Rᵗ·E` per atom.  `_filter` divides it by `nnei`
(the padded neighbor count `shape[1]/4` when `original_sel` is unset, else
`sum(original_sel)`), slices the first `axis_neuron` columns as
`xyz_scatter_2`, also slices rows 1..3 as `qmat` and transposes them, forms
`result = tf.matmul(xyz_scatter_1, xyz_scatter_2, transpose_a=True)` and
reshapes it to `[-1, outputs_size_2 * outputs_size[-1]]`.  The matrices are
generic over a field so that both the exact-rational and the real
instantiations apply. -/

/-- The divisor of `xyz_scatter_1 / nnei`: the pre-exclusion neighbor count
`np.sum(self.original_sel)` when `original_sel` is set, otherwise the padded
count `shape[1] / 4`. -/
def nneiCount (paddedNnei : ℕ) (originalSel : Option (List ℕ)) : ℕ :=
  match originalSel with
  | none => paddedNnei
  | some l => l.sum

/-- The scaled matrix `G`: entry `(c, w)` of
`tf.matmul(inputs_i, xyz_scatter_att, transpose_a=True) / nnei`, contracting
the `[n, 4]` raw features `R` with the `[n, W]` attended embedding `E` over
the neighbor axis. -/
def gMat {α : Type} [Field α] (n W : ℕ) (R : Fin n → Fin 4 → α) (E : Fin n → Fin W → α)
    (cnt : ℕ) (c : Fin 4) (w : Fin W) : α :=
  (∑ j : Fin n, R j c * E j w) / (cnt : α)

/-- Entry `(w, m)` of `result = tf.matmul(xyz_scatter_1, xyz_scatter_2,
transpose_a=True)`, where `xyz_scatter_2` is the slice of the first `M2 =
axis_neuron` columns of the already-divided `xyz_scatter_1`. -/
def filterResult {α : Type} [Field α] (n W M2 : ℕ) (hM : M2 ≤ W)
    (R : Fin n → Fin 4 → α) (E : Fin n → Fin W → α) (cnt : ℕ)
    (w : Fin W) (m : Fin M2) : α :=
  ∑ c : Fin 4, gMat n W R E cnt c w * gMat n W R E cnt c (Fin.castLE hM m)

/-- Row-major flat position of entry `(w, m)` of a `[W, M2]` matrix. -/
def flatIdxWM (W M2 : ℕ) (w : Fin W) (m : Fin M2) : Fin (W * M2) :=
  ⟨w.1 * M2 + m.1, by
    have hm := m.2
    have hw := w.2
    calc w.1 * M2 + m.1 < w.1 * M2 + M2 := by omega
      _ = (w.1 + 1) * M2 := by ring
      _ ≤ W * M2 := Nat.mul_le_mul_right M2 hw⟩

/-- A flat index into a `[W, M2]` matrix has row quotient below `W`. -/
theorem unflatten_div_lt (W M2 : ℕ) (i : Fin (W * M2)) : i.1 / M2 < W := by
  obtain ⟨iv, hi⟩ := i
  have hM2 : 0 < M2 := by
    rcases Nat.eq_zero_or_pos M2 with h | h
    · subst h; rw [Nat.mul_zero] at hi; omega
    · exact h
  exact (Nat.div_lt_iff_lt_mul hM2).mpr hi

/-- A flat index into a `[W, M2]` matrix has column remainder below `M2`. -/
theorem unflatten_mod_lt (W M2 : ℕ) (i : Fin (W * M2)) : i.1 % M2 < M2 := by
  obtain ⟨iv, hi⟩ := i
  have hM2 : 0 < M2 := by
    rcases Nat.eq_zero_or_pos M2 with h | h
    · subst h; rw [Nat.mul_zero] at hi; omega
    · exact h
  exact Nat.mod_lt _ hM2

/-- The final reshape `tf.reshape(result, [-1, outputs_size_2 *
outputs_size[-1]])`: the per-atom `[W, M2]` matrix laid out row-major as a
vector of length `W * M2`. -/
def filterDescriptorFlat {α : Type} [Field α] (n W M2 : ℕ) (hM : M2 ≤ W)
    (R : Fin n → Fin 4 → α) (E : Fin n → Fin W → α) (cnt : ℕ) (i : Fin (W * M2)) : α :=
  filterResult n W M2 hM R E cnt ⟨i.1 / M2, unflatten_div_lt W M2 i⟩
    ⟨i.1 % M2, unflatten_mod_lt W M2 i⟩

/-- Row-major flattening inverts at the row component. -/
theorem flatIdxWM_div (W M2 : ℕ) (w : Fin W) (m : Fin M2) :
    (w.1 * M2 + m.1) / M2 = w.1 := by
  have hM2 : 0 < M2 := m.pos
  rw [Nat.add_comm, Nat.add_mul_div_right _ _ hM2, Nat.div_eq_of_lt m.2]
  omega

/-- Row-major flattening inverts at the column component. -/
theorem flatIdxWM_mod (W M2 : ℕ) (w : Fin W) (m : Fin M2) :
    (w.1 * M2 + m.1) % M2 = m.1 := by
  rw [Nat.add_comm, Nat.add_mul_mod_self_right, Nat.mod_eq_of_lt m.2]

/-- **C4**.  For every batch, descriptor assembly computes `G = Rᵗ·E`
(contracting the `[n, 4]` raw features with the `[n, W]` attended embedding
over the neighbor axis), divides `G` by the pre-exclusion neighbor count (the
sum of `original_sel` when it is set, otherwise the padded `nnei`), slices the
first `axis_neuron = M2` columns as `G2`, and exposes the matrix `Gᵗ·G2`
flattened row-major to a vector of length `W * M2` per atom: the entry at flat
position `w * M2 + m` is `Σ_c ((Σ_j R_jc E_jw)/cnt)·((Σ_j R_jc E_jm)/cnt)`. -/
theorem filter_descriptor_assembly {α : Type} [Field α] (n W M2 : ℕ) (hM : M2 ≤ W)
    (R : Fin n → Fin 4 → α) (E : Fin n → Fin W → α) (originalSel : Option (List ℕ))
    (w : Fin W) (m : Fin M2) :
    (filterDescriptorFlat n W M2 hM R E (nneiCount n originalSel) (flatIdxWM W M2 w m) =
      ∑ c : Fin 4,
        ((∑ j : Fin n, R j c * E j w) / ((nneiCount n originalSel : ℕ) : α)) *
          ((∑ j : Fin n, R j c * E j (Fin.castLE hM m)) /
            ((nneiCount n originalSel : ℕ) : α))) ∧
    nneiCount n none = n ∧ (∀ l : List ℕ, nneiCount n (some l) = l.sum) := by
  refine ⟨?_, rfl, fun l => rfl⟩
  have hrow : (⟨(flatIdxWM W M2 w m).1 / M2, unflatten_div_lt W M2 (flatIdxWM W M2 w m)⟩ :
      Fin W) = w := by
    apply Fin.ext
    exact flatIdxWM_div W M2 w m
  have hcol : (⟨(flatIdxWM W M2 w m).1 % M2, unflatten_mod_lt W M2 (flatIdxWM W M2 w m)⟩ :
      Fin M2) = m := by
    apply Fin.ext
    exact flatIdxWM_mod W M2 w m
  unfold filterDescriptorFlat
  rw [hrow, hcol]
  rfl

/-- **C4** witness: the assembly identity applied at the concrete input
`n = 1`, `W = 2`, `M2 = 1`, constant features and embeddings over `ℚ`,
`original_sel` unset, entry `(w, m) = (1, 0)`. -/
theorem filter_descriptor_assembly_witness :
    ((1 : ℕ) ≤ 2) ∧
    ((filterDescriptorFlat 1 2 1 (by norm_num) (fun _ _ => (1 : ℚ)) (fun _ _ => 1)
        (nneiCount 1 none) (flatIdxWM 2 1 1 0) =
      ∑ _c : Fin 4,
        ((∑ _j : Fin 1, (1 : ℚ) * 1) / ((nneiCount 1 none : ℕ) : ℚ)) *
          ((∑ _j : Fin 1, (1 : ℚ) * 1) / ((nneiCount 1 none : ℕ) : ℚ))) ∧
    nneiCount 1 none = 1 ∧ (∀ l : List ℕ, nneiCount 1 (some l) = l.sum)) :=
  ⟨by norm_num,
    filter_descriptor_assembly 1 2 1 (by norm_num) (fun _ _ => (1 : ℚ)) (fun _ _ => 1)
      none 1 0⟩

/-- `qmat = tf.transpose(tf.slice(xyz_scatter_1, [0, 1, 0], [-1, 3, -1]),
perm=[0, 2, 1])` from `_filter`: the 3 spatial rows (rows 1..3, excluding the
radial row 0) of the scaled matrix `G`, transposed to a per-atom `[W, 3]`
matrix. -/
def qmatCode {α : Type} [Field α] (n W : ℕ) (R : Fin n → Fin 4 → α)
    (E : Fin n → Fin W → α) (cnt : ℕ) (w : Fin W) (c : Fin 3) : α :=
  gMat n W R E cnt c.succ w

/-- The reshape `tf.reshape(qmat, [-1, natoms[0], self.get_dim_rot_mat_1() * 3])`
from `_pass_filter`: the per-atom `[W, 3]` rotation matrix laid out row-major
as a vector of length `W * 3` — this is the layout exposed at the
fitting-network boundary. -/
def qmatFlat {α : Type} [Field α] (n W : ℕ) (R : Fin n → Fin 4 → α)
    (E : Fin n → Fin W → α) (cnt : ℕ) (i : Fin (W * 3)) : α :=
  qmatCode n W R E cnt ⟨i.1 / 3, unflatten_div_lt W 3 i⟩ ⟨i.1 % 3, unflatten_mod_lt W 3 i⟩

/-- The layout the claim describes: `qmat` as a `[3, W]` matrix — 3 spatial
rows of `G`, width `W` — flattened row-major. -/
def qmatClaimFlat {α : Type} [Field α] (n W : ℕ) (R : Fin n → Fin 4 → α)
    (E : Fin n → Fin W → α) (cnt : ℕ) (i : Fin (3 * W)) : α :=
  gMat n W R E cnt
    ⟨i.1 / W + 1, by have h := unflatten_div_lt 3 W i; omega⟩
    ⟨i.1 % W, unflatten_mod_lt 3 W i⟩

/-- **C7** counterexample.  With `W = 2`, one neighbor slot, raw features
`(0, 1, 2, 3)` and embedding `(1, 10)`, the exposed flat `qmat` (per-atom
`[W, 3] = [2, 3]`, row-major) differs at flat position 1 from the `[3, W]`
layout the claim states: the code exposes `G[2][0] = 2` there, while a `3 × W`
row-major layout would expose `G[1][1] = 10`. -/
theorem qmat_shape_claim_false :
    qmatFlat 1 2 (fun _ c => ((c : ℕ) : ℚ)) (fun _ w => if w = 0 then 1 else 10) 1
        ⟨1, by norm_num⟩ ≠
      qmatClaimFlat 1 2 (fun _ c => ((c : ℕ) : ℚ)) (fun _ w => if w = 0 then 1 else 10) 1
        ⟨1, by norm_num⟩ := by
  unfold qmatFlat qmatClaimFlat qmatCode gMat
  simp [Fin.sum_univ_succ, Fin.succ, Fin.ext_iff]

/-- **C7** (amended).  For every atom, the exposed rotation matrix `qmat`
consists exactly of the 3 spatial rows (rows 1..3 of `G`, excluding the radial
row 0) of the scaled matrix `G`, transposed: it is exposed to the
fitting-network boundary as a per-atom `[W, 3]` matrix (flattened to length
`W * 3`), whose entry at flat position `w * 3 + c` is `G[c+1][w]` — not as a
`[3, W]` matrix as claimed. -/
theorem qmat_spatial_rows {α : Type} [Field α] (n W : ℕ) (R : Fin n → Fin 4 → α)
    (E : Fin n → Fin W → α) (cnt : ℕ) (w : Fin W) (c : Fin 3) :
    qmatFlat n W R E cnt (flatIdxWM W 3 w c) = gMat n W R E cnt c.succ w := by
  have hrow : (⟨(flatIdxWM W 3 w c).1 / 3, unflatten_div_lt W 3 (flatIdxWM W 3 w c)⟩ :
      Fin W) = w := by
    apply Fin.ext
    exact flatIdxWM_div W 3 w c
  have hcol : (⟨(flatIdxWM W 3 w c).1 % 3, unflatten_mod_lt W 3 (flatIdxWM W 3 w c)⟩ :
      Fin 3) = c := by
    apply Fin.ext
    exact flatIdxWM_mod W 3 w c
  unfold qmatFlat
  rw [hrow, hcol]
  rfl

/-! ## Two-sided type-embedding mixing (`_filter_lower`, se_atten.py lines 849-892)

With `type_one_side = False` the source builds the pairwise table
`two_side_type_embedding` whose row `i * ntypes + j` (after the reshape to
`[-1, 2Y]`) concatenates `type_embedding[j]` with `type_embedding[i]`, pushes
it row-by-row through `embedding_net`, and gathers rows at
`index_of_two_side = tmpres1 + tmpres2` where
`tmpres1 = self.nei_type_vec * type_embedding_shape[0]` and
`tmpres2 = tf.tile(atype, [self.nnei])`.
`nei_type_vec` is the flat atom-major list of neighbor types (entry `p`
belongs to atom `p / nnei`, slot `p % nnei`), while `tf.tile(atype, [nnei])`
repeats the whole length-`natoms` vector `atype` `nnei` times, so entry `p` of
the tile is `atype[p % natoms]`.  The gathered row is combined with the plain
radial embedding by
`xyz_scatter * two_embd + embedding_compose_s * xyz_scatter
  + embedding_compose_n * two_embd`.
`embedding_net` composed with the pairwise table row for center type `j` and
neighbor type `i` is abstracted as an arbitrary per-row function
`pairNet j i`. -/

/-- Entry `p` of `tmpres2 = tf.tile(atype, [self.nnei])`. -/
def tiledAtype (atype : List ℕ) (p : ℕ) : ℕ :=
  atype.getD (p % atype.length) 0

/-- Entry `p` of the flat atom-major `nei_type_vec`: the type of neighbor slot
`p % nnei` of atom `p / nnei`. -/
def neiTypeFlat (neiTypes : List (List ℕ)) (nnei p : ℕ) : ℕ :=
  (neiTypes.getD (p / nnei) []).getD (p % nnei) 0

/-- `index_of_two_side = tmpres1 + tmpres2` as the source computes it. -/
def indexOfTwoSide (atype : List ℕ) (neiTypes : List (List ℕ)) (nnei ntypes p : ℕ) : ℕ :=
  neiTypeFlat neiTypes nnei p * ntypes + tiledAtype atype p

/-- The gather index the claim (and the commented-out source line
`index_of_two_side = self.nei_type_vec * self.ntypes + tf.tile(atype, [1, self.nnei])`)
describes: the slot's neighbor type paired with the slot's own center type
`atype[p / nnei]`. -/
def indexOfTwoSideClaim (atype : List ℕ) (neiTypes : List (List ℕ))
    (nnei ntypes p : ℕ) : ℕ :=
  neiTypeFlat neiTypes nnei p * ntypes + atype.getD (p / nnei) 0

/-- The flattened `embedding_of_two_side_type_embedding` table: row
`i * ntypes + j` holds the embedding-net output `pairNet j i` for center type
`j` and neighbor type `i`, with `W` output channels. -/
def twoSideTableFlat (ntypes W : ℕ) (pairNet : ℕ → ℕ → Fin W → ℚ) : List (Fin W → ℚ) :=
  (List.range ntypes).flatMap (fun i => (List.range ntypes).map (fun j => pairNet j i))

/-- `two_embd = tf.nn.embedding_lookup(embedding_of_two_side_type_embedding,
index_of_two_side)` at flat slot `p`. -/
def twoEmbd (atype : List ℕ) (neiTypes : List (List ℕ)) (nnei ntypes W : ℕ)
    (pairNet : ℕ → ℕ → Fin W → ℚ) (p : ℕ) : Fin W → ℚ :=
  (twoSideTableFlat ntypes W pairNet).getD (indexOfTwoSide atype neiTypes nnei ntypes p)
    (fun _ => 0)

/-- The mixing rule `xyz_scatter * two_embd + embedding_compose_s * xyz_scatter
+ embedding_compose_n * two_embd` (per channel). -/
def xyzScatterMix (W : ℕ) (base pair s nv : Fin W → ℚ) (wch : Fin W) : ℚ :=
  base wch * pair wch + s wch * base wch + nv wch * pair wch

/-- The slot embedding of the two-sided branch as the code computes it:
the radial embedding-net output `ebdNet (radial p)` mixed with the pair
embedding gathered at `index_of_two_side`. -/
def slotEmbedTwoSide (atype : List ℕ) (neiTypes : List (List ℕ)) (nnei ntypes W : ℕ)
    (ebdNet : ℚ → Fin W → ℚ) (pairNet : ℕ → ℕ → Fin W → ℚ) (s nv : Fin W → ℚ)
    (radial : ℕ → ℚ) (p : ℕ) (wch : Fin W) : ℚ :=
  xyzScatterMix W (ebdNet (radial p)) (twoEmbd atype neiTypes nnei ntypes W pairNet p)
    s nv wch

/-- The slot embedding the claim describes: the identical mixing rule, but with
the pair embedding looked up by the slot's own (center, neighbor) type pair. -/
def slotEmbedTwoSideClaim (atype : List ℕ) (neiTypes : List (List ℕ))
    (nnei ntypes W : ℕ) (ebdNet : ℚ → Fin W → ℚ) (pairNet : ℕ → ℕ → Fin W → ℚ)
    (s nv : Fin W → ℚ) (radial : ℕ → ℚ) (p : ℕ) (wch : Fin W) : ℚ :=
  xyzScatterMix W (ebdNet (radial p))
    ((twoSideTableFlat ntypes W pairNet).getD
      (indexOfTwoSideClaim atype neiTypes nnei ntypes p) (fun _ => 0))
    s nv wch

/-- **C5**.  Evaluation of the two-sided lookup at the failing input
`natoms = 2`, `nnei = 2`, `ntypes = 2`, `atype = [0, 1]`, all neighbor types
`0`: at flat slot `p = 1` — atom 0's second neighbor slot — the code gathers
the pair index `0 * 2 + atype[1 % 2] = 1` (center type taken from atom 1,
because `tf.tile(atype, [nnei])` repeats the whole atype vector instead of
repeating each entry `nnei` times), whereas the claimed lookup by the slot's
own `(center_type, neighbor_type) = (0, 0)` gives index `0`; with an injective
pair table and the mixing rule `base ⊙ pair + s·base + n·pair` (here `s = n =
0`), the produced embedding is `40 ≠ 20`.  The mixing formula itself is as
claimed; only the center type of the gathered pair is misaligned. -/
theorem two_side_lookup_misaligned :
    indexOfTwoSide [0, 1] [[0, 0], [0, 0]] 2 2 1 = 1 ∧
    indexOfTwoSideClaim [0, 1] [[0, 0], [0, 0]] 2 2 1 = 0 ∧
    slotEmbedTwoSide [0, 1] [[0, 0], [0, 0]] 2 2 1 (fun x _ => x)
        (fun c n _ => 10 * (2 * n + c + 1)) (fun _ => 0) (fun _ => 0)
        (fun p => (p : ℚ) + 1) 1 0 = 40 ∧
    slotEmbedTwoSideClaim [0, 1] [[0, 0], [0, 0]] 2 2 1 (fun x _ => x)
        (fun c n _ => 10 * (2 * n + c + 1)) (fun _ => 0) (fun _ => 0)
        (fun p => (p : ℚ) + 1) 1 0 = 20 := by
  refine ⟨rfl, rfl, ?_, ?_⟩ <;>
    norm_num [slotEmbedTwoSide, slotEmbedTwoSideClaim, xyzScatterMix, twoEmbd,
      twoSideTableFlat, indexOfTwoSide, indexOfTwoSideClaim, neiTypeFlat, tiledAtype,
      List.range_succ]

/-! ## Neighbor-slot permutation (`_filter_lower`/`_filter` forward pass)

For the permutation-invariance check the per-atom forward pass is taken at the
valid configuration `attn_layer = 0`: the `for i in range(layer_num)` loop of
`_attention_layers` then runs zero times, so the attention stack returns its
input unchanged and the slot embedding goes straight into the closing
`tf.matmul` of `_filter_lower` and the assembly of `_filter`.  The
neighbor-validity mask `nmask` enters the forward pass only inside
`_scaled_dot_attn`, so with zero attention layers it does not occur (in the
counterexample below it is the all-ones mask, which any slot permutation fixes
pointwise). -/

/-- The per-atom descriptor of the two-sided branch with `attn_layer = 0` and
no exclusions: slot `k` of atom `i` is flat slot `p = i * nnei + k`, its
radial channel is `R (p / nnei) (p % nnei) 0`, its embedding is the two-sided
mix, and the result is assembled by `filterDescriptorFlat` with the padded
neighbor count (`original_sel` unset). -/
def descrptTwoSideAtten0 (atype : List ℕ) (neiTypes : List (List ℕ))
    (nnei ntypes W M2 : ℕ) (hM : M2 ≤ W) (ebdNet : ℚ → Fin W → ℚ)
    (pairNet : ℕ → ℕ → Fin W → ℚ) (s nv : Fin W → ℚ)
    (R : ℕ → ℕ → Fin 4 → ℚ) (i : ℕ) : Fin (W * M2) → ℚ :=
  filterDescriptorFlat nnei W M2 hM (fun k c => R i k.1 c)
    (fun k wch => slotEmbedTwoSide atype neiTypes nnei ntypes W ebdNet pairNet s nv
      (fun p => R (p / nnei) (p % nnei) 0) (i * nnei + k.1) wch)
    (nneiCount nnei none)

/-- Raw features for the permutation counterexample: atom 0's two neighbor
slots have radial channels 1 and 2 and zero spatial channels. -/
def permDemoR (a k : ℕ) (c : Fin 4) : ℚ :=
  if a = 0 ∧ c = 0 then (if k = 0 then 1 else 2) else 0

/-- The same raw features with atom 0's two neighbor slots swapped. -/
def permDemoRP (a k : ℕ) (c : Fin 4) : ℚ :=
  if a = 0 ∧ c = 0 then (if k = 0 then 2 else 1) else 0

/-- An injective pair-embedding net for the counterexample: the table rows are
`10, 20, 30, 40`. -/
def permDemoPairNet (c n : ℕ) : Fin 1 → ℚ := fun _ => 10 * (2 * n + c + 1)

/-- The identity radial embedding net (one output channel). -/
def permDemoEbd (x : ℚ) : Fin 1 → ℚ := fun _ => x

/-- **C3**.  Evaluation of the forward pass at the failing input: `natoms = 2`
with `atype = [0, 1]`, `nnei = 2`, `ntypes = 2`, two-sided type embedding
(`type_one_side = False`), `attn_layer = 0`, `W = M2 = 1`, all-ones validity
mask, no exclusions.  Swapping atom 0's two neighbor slots — simultaneously in
the raw 4-wide features (`permDemoR` vs `permDemoRP`), in the neighbor-type
list (`[0, 1]` vs its reverse `[1, 0]`), and trivially in the all-ones mask —
changes atom 0's assembled descriptor (from `7225` to `4900`): the pair
gathered for a slot takes its center type from `tf.tile(atype, [nnei])`, which
is positional and does not move with the permuted slot contents.  The first
two conjuncts exhibit that the primed inputs are exactly the slot-swapped
originals. -/
theorem permuting_neighbor_slots_changes_descriptor :
    (∀ k : Fin 2, ∀ c : Fin 4, permDemoRP 0 k.1 c = permDemoR 0 (1 - k.1) c) ∧
    ([[1, 0], [0, 0]] : List (List ℕ)).getD 0 [] =
      (([[0, 1], [0, 0]] : List (List ℕ)).getD 0 []).reverse ∧
    descrptTwoSideAtten0 [0, 1] [[0, 1], [0, 0]] 2 2 1 1 le_rfl permDemoEbd
        permDemoPairNet (fun _ => 0) (fun _ => 0) permDemoR 0 ⟨0, by norm_num⟩ ≠
      descrptTwoSideAtten0 [0, 1] [[1, 0], [0, 0]] 2 2 1 1 le_rfl permDemoEbd
        permDemoPairNet (fun _ => 0) (fun _ => 0) permDemoRP 0 ⟨0, by norm_num⟩ := by
  refine ⟨?_, rfl, ?_⟩
  · intro k c
    fin_cases k <;> simp [permDemoR, permDemoRP]
  · norm_num [descrptTwoSideAtten0, filterDescriptorFlat, filterResult, gMat, nneiCount,
      slotEmbedTwoSide, xyzScatterMix, twoEmbd, twoSideTableFlat, indexOfTwoSide,
      neiTypeFlat, tiledAtype, permDemoR, permDemoRP, permDemoPairNet, permDemoEbd,
      List.range_succ, Fin.sum_univ_succ, Fin.ext_iff]

/-! ## Fail-fast configuration checks (`_pass_filter`, se_atten.py lines 417-424,
and `_filter_lower`, lines 802-805)

`_pass_filter` begins with
`assert input_dict is not None and input_dict.get("type_embedding", None) is not None,
 "se_atten desctiptor must use type_embedding"`
before any descriptor tensor is formed, and `_filter_lower` raises
`RuntimeError("compression of attention descriptor is not supported at the
moment")` when `self.compress` is set, before the embedding net and attention
stack are applied.  Graph construction is modelled as an `Except`: an error
means the build aborts and no descriptor output exists. -/

/-- `_filter_lower` as a graph-building step: the compression check guards
everything downstream; on success the step produces
`tf.matmul(inputs_i, xyz_scatter_att, transpose_a=True)`. -/
def filterLowerGraph {α : Type} [Field α] (compress : Bool) (n W : ℕ)
    (R : Fin n → Fin 4 → α) (E : Fin n → Fin W → α) :
    Except String (Fin 4 → Fin W → α) :=
  if compress then
    Except.error "compression of attention descriptor is not supported at the moment"
  else
    Except.ok (fun c w => ∑ j : Fin n, R j c * E j w)

/-- `build → _pass_filter → _filter → _filter_lower` as one graph
construction: the `type_embedding` assertion of `_pass_filter` fires first,
then the compression check of `_filter_lower`; only when both pass are the
descriptor vector and the rotation matrix produced. -/
def buildGraph {α : Type} [Field α] {τ : Type} (typeEmbedding : Option τ)
    (compress : Bool) (n W M2 : ℕ) (hM : M2 ≤ W) (R : Fin n → Fin 4 → α)
    (E : Fin n → Fin W → α) (cnt : ℕ) :
    Except String ((Fin (W * M2) → α) × (Fin (W * 3) → α)) :=
  match typeEmbedding with
  | none => Except.error "se_atten desctiptor must use type_embedding"
  | some _ =>
      match filterLowerGraph compress n W R E with
      | Except.error e => Except.error e
      | Except.ok _ =>
          Except.ok (filterDescriptorFlat n W M2 hM R E cnt, qmatFlat n W R E cnt)

/-- **C8**.  Building the descriptor graph fails fast on configuration errors:
with compression enabled the build aborts with the error `compression of
attention descriptor is not supported at the moment`, and with the required
`type_embedding` entry missing from `input_dict` it aborts with the assertion
message `se_atten desctiptor must use type_embedding`; in both cases the
result is an error, so no descriptor output (no partial graph) is produced. -/
theorem build_fails_fast :
    (∀ (compress : Bool) (n W M2 : ℕ) (hM : M2 ≤ W) (R : Fin n → Fin 4 → ℚ)
        (E : Fin n → Fin W → ℚ) (cnt : ℕ),
      buildGraph (τ := Unit) none compress n W M2 hM R E cnt =
        Except.error "se_atten desctiptor must use type_embedding") ∧
    (∀ (te : Unit) (n W M2 : ℕ) (hM : M2 ≤ W) (R : Fin n → Fin 4 → ℚ)
        (E : Fin n → Fin W → ℚ) (cnt : ℕ),
      buildGraph (some te) true n W M2 hM R E cnt =
        Except.error
          "compression of attention descriptor is not supported at the moment") :=
  ⟨fun _ _ _ _ _ _ _ _ => rfl, fun _ _ _ _ _ _ _ _ => rfl⟩

/-- **C8** witness: both failure modes evaluated at a concrete configuration
(`n = 1`, `W = 2`, `M2 = 1`). -/
theorem build_fails_fast_witness :
    buildGraph (τ := Unit) none false 1 2 1 (by norm_num) (fun _ _ => (0 : ℚ))
        (fun _ _ => 0) 1 =
      Except.error "se_atten desctiptor must use type_embedding" ∧
    buildGraph (some ()) true 1 2 1 (by norm_num) (fun _ _ => (0 : ℚ))
        (fun _ _ => 0) 1 =
      Except.error "compression of attention descriptor is not supported at the moment" :=
  ⟨build_fails_fast.1 false 1 2 1 (by norm_num) (fun _ _ => 0) (fun _ _ => 0) 1,
   build_fails_fast.2 () 1 2 1 (by norm_num) (fun _ _ => 0) (fun _ _ => 0) 1⟩

/-! ## Atom-type clipping in `build` (se_atten.py lines 363-400)

`build` first hands the raw `atype` to `op_module.prod_env_mat_a_mix` (the
neighbor-list op) and only afterwards applies
`atype = tf.clip_by_value(atype, 0, self.ntypes - 1)` — the comment in the
source reads `prevent lookup error; the actual atype already used for nlist` —
then slices the local atoms into `self.atype_nloc`, which is what
`_pass_filter` uses for the exclusion mask and the type-embedding lookups. -/

/-- `tf.clip_by_value(t, 0, ntypes - 1)`. -/
def clipAtype (ntypes : ℕ) (t : ℤ) : ℤ :=
  min (max t 0) ((ntypes : ℤ) - 1)

/-- The two consumers of the atom types in `build`: the first component is the
tensor handed to the neighbor-list op (raw, unclipped), the second is
`atype_nloc` (clipped, then sliced to the `nloc` local atoms). -/
def buildAtypeFlow (atype : List ℤ) (ntypes nloc : ℕ) : List ℤ × List ℤ :=
  (atype, (atype.map (clipAtype ntypes)).take nloc)

/-- `tf.nn.embedding_lookup` into a table with one row per type: defined only
for in-range indices. -/
def embeddingLookup {β : Type} (table : List β) (i : ℤ) : Option β :=
  if h : 0 ≤ i ∧ i.toNat < table.length then some (table.get ⟨i.toNat, h.2⟩) else none

/-- **C9**.  `build` clips every center-atom type into `[0, ntypes - 1]`
before it reaches the type-embedding lookups and the exclusion mask, so
negative or out-of-range types supplied at the public interface cannot cause
an embedding-lookup failure (every lookup into a table with one row per type
succeeds); the neighbor list itself is built from the unclipped types. -/
theorem build_clips_atype {β : Type} (atype : List ℤ) (ntypes nloc : ℕ)
    (table : List β) (hn : 1 ≤ ntypes) (hlen : table.length = ntypes) :
    (buildAtypeFlow atype ntypes nloc).1 = atype ∧
    (∀ t ∈ (buildAtypeFlow atype ntypes nloc).2,
      0 ≤ t ∧ t < (ntypes : ℤ) ∧ (embeddingLookup table t).isSome) := by
  refine ⟨rfl, ?_⟩
  intro t ht
  simp only [buildAtypeFlow] at ht
  have ht2 := List.mem_of_mem_take ht
  obtain ⟨s, _, hs⟩ := List.mem_map.mp ht2
  have hb : 0 ≤ t ∧ t < (ntypes : ℤ) := by
    rw [← hs]
    unfold clipAtype
    omega
  refine ⟨hb.1, hb.2, ?_⟩
  unfold embeddingLookup
  rw [dif_pos ⟨hb.1, by omega⟩]
  simp

/-- **C9** witness: the clipping theorem applied to the concrete types
`[-1, 5, 0]` with `ntypes = 2`, `nloc = 3`, and a 2-row lookup table. -/
theorem build_clips_atype_witness :
    ((1 : ℕ) ≤ 2 ∧ ([10, 20] : List ℕ).length = 2) ∧
    ((buildAtypeFlow [-1, 5, 0] 2 3).1 = [-1, 5, 0] ∧
      (∀ t ∈ (buildAtypeFlow [-1, 5, 0] 2 3).2,
        0 ≤ t ∧ t < (2 : ℤ) ∧ (embeddingLookup ([10, 20] : List ℕ) t).isSome)) :=
  ⟨⟨by norm_num, by norm_num⟩,
    build_clips_atype [-1, 5, 0] 2 3 ([10, 20] : List ℕ) (by norm_num) (by norm_num)⟩

/-! ## Normalization-statistics policy (`DescrptSeAtten.__init__`, se_atten.py
lines 88-127, and `compute_input_stats`, lines 195-276)

The constructor always forwards `set_davg_zero=True` to `DescrptSeA.__init__`.
`compute_input_stats` accumulates per-system, per-type sums
(`sumr, suma, sumn, sumr2, suma2`) and hands them to the base class's
`merge_input_stats` for finalization. -/

/-- The hard-coded `set_davg_zero=True` argument of the `DescrptSeA.__init__`
call inside `DescrptSeAtten.__init__`. -/
def seAttenSetDavgZero : Bool := true

/-- Per-system, per-type accumulated statistics, as produced by
`_compute_dstats_sys_smth`. -/
structure SysStat where
  sumr : ℚ
  suma : ℚ
  sumr2 : ℚ
  suma2 : ℚ
  sumn : ℚ

/-- Componentwise accumulation of the per-system sums. -/
def addSysStat (x y : SysStat) : SysStat :=
  ⟨x.sumr + y.sumr, x.suma + y.suma, x.sumr2 + y.sumr2, x.suma2 + y.suma2,
    x.sumn + y.sumn⟩

/-- The total of all accumulated systems for one type. -/
def totalSysStat (l : List SysStat) : SysStat :=
  l.foldr addSysStat ⟨0, 0, 0, 0, 0⟩

/-- Modelled from the spec: the finalization of the normalization mean inside
`merge_input_stats` of the base class `DescrptSeA` (file `se_a.py`, which is
not among the sources; only its caller `compute_input_stats` is).  Per type,
the mean `davg` is the accumulated sum divided by the accumulated count — one
radial and one angular statistic, replicated across that type's descriptor
channels — except that it is forced to zero when the instance was constructed
with `set_davg_zero`. -/
def davgOfStats (setDavgZero : Bool) (st : SysStat) : ℚ × ℚ :=
  if setDavgZero then (0, 0) else (st.sumr / st.sumn, st.suma / st.sumn)

/-- The davg table of a `DescrptSeAtten` instance after an arbitrary sequence
of `compute_input_stats` accumulations: one (radial, angular) mean pair per
atom type, finalized with the constructor's hard-coded `set_davg_zero=True`. -/
def seAttenDavg (statsPerType : List (List SysStat)) : List (ℚ × ℚ) :=
  statsPerType.map (fun l => davgOfStats seAttenSetDavgZero (totalSysStat l))

/-- **C10**.  The `DescrptSeAtten` constructor always passes
`set_davg_zero=True` to its base descriptor, so for every instance and every
sequence of `compute_input_stats` accumulations the normalization mean `davg`
is identically zero for every atom type. -/
theorem se_atten_davg_zero (statsPerType : List (List SysStat)) :
    seAttenSetDavgZero = true ∧
    ∀ p ∈ seAttenDavg statsPerType, p = (0, 0) := by
  refine ⟨rfl, ?_⟩
  intro p hp
  simp only [seAttenDavg, List.mem_map] at hp
  obtain ⟨l, _, hl⟩ := hp
  rw [← hl]
  rfl

/-- **C10** witness: the zero mean evaluated on one type with one accumulated
system of nonzero sums. -/
theorem se_atten_davg_zero_witness :
    davgOfStats seAttenSetDavgZero (totalSysStat [⟨1, 2, 3, 4, 5⟩]) = (0, 0) :=
  (se_atten_davg_zero [[⟨1, 2, 3, 4, 5⟩]]).2
    (davgOfStats seAttenSetDavgZero (totalSysStat [⟨1, 2, 3, 4, 5⟩]))
    (by simp [seAttenDavg])
